import Mathlib

/-
Verification of the order ledger, tick aggregator, recurring scheduler,
instrument resolution and position bookkeeping of `ibroke.py`.

Modelling conventions:
- Python floats carrying finite values are modelled as `Rat`; a float slot
  that may hold `NaN` is modelled as `Option Rat` with `none` playing the
  role of `NaN` (all `NaN`-producing operations propagate `none`).
- Wall-clock reads (`time.time()`) are passed in explicitly as a `now`
  argument, since the code only stores them.
- A Python method that mutates `self` becomes a function returning the new
  state; a method that may additionally raise returns the state paired with
  a flag or an `Except`.  When an exception is raised partway through, the
  returned state reflects exactly the mutations performed before the raise,
  as in the source.
-/

/-- The per-order record of `ibroke.Order` (`ibroke.py`, `class Order`).
`quantity` is signed (positive buy / negative sell), `filled` uses the same
sign convention.  `openFlag` models the source's `open` attribute (a Lean
keyword).  `instId` stands for the owning instrument's contract id. -/
structure Order where
  id : Nat
  instId : Nat
  price : Option Rat
  quantity : Int
  filled : Int
  avgPrice : Option Rat
  openFlag : Bool
  cancelled : Bool
  profit : Rat
  commission : Rat
  openTime : Option Rat
  fillTime : Option Rat
  message : Option String
  deriving DecidableEq

/-- Model of Python's `math.copysign(x, y)` as used on integral values with
`x >= 0`: the magnitude `x` signed like `y` (a nonnegative `y`, including 0,
gives `+x`). -/
def copysign (x : Nat) (y : Int) : Int :=
  if y < 0 then -(x : Int) else (x : Int)

/-- The status-string test of `IBroke._orderStatus`:
`msg.status in ('ApiCanceled', 'Cancelled')`. -/
def statusIsCancel (s : String) : Bool :=
  s == "ApiCanceled" || s == "Cancelled"

/-- The fields of an `orderStatus` message used by `IBroke._orderStatus`.
`filled` is the broker-reported cumulative filled quantity (a nonnegative
whole number of shares). -/
structure OrderStatusMsg where
  orderId : Nat
  status : String
  filled : Nat
  avgFillPrice : Rat
  deriving DecidableEq

/-- The shared guard `if order.open_time is None: order.open_time =
time.time()` at the head of `_orderStatus`, `_openOrder` and
`_execDetails`. -/
def openTimeStep (o : Order) (now : Rat) : Order :=
  if o.openTime = none then { o with openTime := some now } else o

/-- `IBroke._orderStatus` (ibroke.py lines 774-801) acting on the order it
looked up for `msg.orderId`; returns the updated order together with a flag
recording whether `_call_order_handlers` was invoked.  The cancel branch
sets `cancelled` and clears `open` (calling no handlers); otherwise a fill
is applied only when the notified cumulative quantity strictly exceeds
`abs(order.filled)`. -/
def orderStatusUpdate (o : Order) (m : OrderStatusMsg) (now : Rat) : Order × Bool :=
  let o1 := openTimeStep o now
  if statusIsCancel m.status then
    ({ o1 with cancelled := true, openFlag := false }, false)
  else if o1.filled.natAbs < m.filled then
    let o2 := { o1 with filled := copysign m.filled o1.quantity,
                        avgPrice := some m.avgFillPrice }
    let o3 := if o2.filled = o2.quantity then { o2 with openFlag := false } else o2
    (o3, true)
  else
    (o1, false)

/-- The state-updating part of `IBroke._openOrder` (ibroke.py lines 803-839)
for an order already present in the ledger: status `'Cancelled'` sets
`cancelled` and clears `open`; status `'Filled'` clears `open`; a nonempty
warning text is recorded as the order's message. -/
def openOrderUpdate (o : Order) (status : String) (warningText : String) (now : Rat) : Order :=
  let o1 := openTimeStep o now
  let o2 :=
    if status == "Cancelled" then { o1 with cancelled := true, openFlag := false }
    else if status == "Filled" then { o1 with openFlag := false }
    else o1
  if warningText ≠ "" then { o2 with message := some warningText } else o2

/-- The fields of an execution record used by `IBroke._execDetails`.
`m_shares` and `m_price` are only logged by the source; `m_cumQty` is the
cumulative filled quantity for the order. -/
structure Execution where
  m_execId : String
  m_orderId : Nat
  m_shares : Nat
  m_price : Rat
  m_cumQty : Nat
  m_avgPrice : Rat
  deriving DecidableEq

/-- `IBroke._execDetails` (ibroke.py lines 845-865) acting on the order it
looked up for the execution; the `_executions` map insertion
(`self._executions[exec.m_execId] = order.id`) is modelled separately by
`execsInsert`.  A fill is applied only when `exec.m_cumQty` strictly
exceeds `abs(order.filled)`; no order handlers are called here (they are
called from `_commissionReport`). -/
def execDetailsUpdate (o : Order) (e : Execution) (now : Rat) : Order :=
  let o1 := openTimeStep o now
  if o1.filled.natAbs < e.m_cumQty then
    let o2 := { o1 with fillTime := some now,
                        filled := copysign e.m_cumQty o1.quantity,
                        avgPrice := some e.m_avgPrice }
    if o2.filled = o2.quantity then { o2 with openFlag := false } else o2
  else o1

/-- The `self._executions[exec.m_execId] = order.id` step of
`IBroke._execDetails`: the execution-id to order-id correlation map. -/
def execsInsert (execs : List (String × Nat)) (execId : String) (orderId : Nat) :
    List (String × Nat) :=
  (execId, orderId) :: execs.filter (fun p => p.1 ≠ execId)

/-- A fill notification, as delivered either by an `orderStatus` message
whose status is not a cancel status, or by an `execDetails` message; both
carry a cumulative filled quantity and an average price. -/
inductive FillEv where
  | statusFill (cum : Nat) (price : Rat)
  | execFill (cum : Nat) (price : Rat)
  deriving DecidableEq

/-- The cumulative filled magnitude carried by a fill notification. -/
def FillEv.cum : FillEv → Nat
  | .statusFill c _ => c
  | .execFill c _ => c

/-- Deliver one fill notification to an order through the corresponding
handler (`_orderStatus` with a non-cancel status, or `_execDetails`).
The wall-clock argument is fixed at 0: it only feeds `openTime`/`fillTime`,
which the fill-quantity claims do not mention. -/
def applyFill (o : Order) (ev : FillEv) : Order :=
  match ev with
  | .statusFill c p => (orderStatusUpdate o { orderId := o.id, status := "Submitted", filled := c, avgFillPrice := p } 0).1
  | .execFill c p => execDetailsUpdate o { m_execId := "e1", m_orderId := o.id, m_shares := 0, m_price := p, m_cumQty := c, m_avgPrice := p } 0

/-- Deliver a sequence of fill notifications in order. -/
def applyFills (o : Order) (evs : List FillEv) : Order :=
  evs.foldl applyFill o

/-- A freshly placed buy order for 5 shares (as built by `IBroke.order` /
`Order._from_ib`: `filled=0, open=True, cancelled=False`). -/
def order5 : Order :=
  { id := 1, instId := 7, price := none, quantity := 5, filled := 0,
    avgPrice := none, openFlag := true, cancelled := false, profit := 0,
    commission := 0, openTime := none, fillTime := none, message := none }

/-- The commission-report fields used by `IBroke._commissionReport`. -/
structure CommissionReport where
  m_execId : String
  m_commission : Rat
  m_realizedPNL : Rat
  deriving DecidableEq

/-- The sanity bound `CRAZY_HIGH_COMMISSION = 1000000` of ibroke.py. -/
def CRAZY_HIGH_COMMISSION : Rat := 1000000

/-- The sanity bound `CRAZY_HIGH_PROFIT = 1000000` of ibroke.py. -/
def CRAZY_HIGH_PROFIT : Rat := 1000000

/-- The accrual step of `IBroke._commissionReport` (ibroke.py lines
889-906) on the correlated order: commission is added only when
`0 <= commission < CRAZY_HIGH_COMMISSION`, realized profit only when
`-CRAZY_HIGH_PROFIT < realizedPNL < CRAZY_HIGH_PROFIT`. -/
def commissionAccrue (o : Order) (r : CommissionReport) : Order :=
  let o1 := if 0 ≤ r.m_commission ∧ r.m_commission < CRAZY_HIGH_COMMISSION
    then { o with commission := o.commission + r.m_commission } else o
  if -CRAZY_HIGH_PROFIT < r.m_realizedPNL ∧ r.m_realizedPNL < CRAZY_HIGH_PROFIT
    then { o1 with profit := o1.profit + r.m_realizedPNL } else o1

/-- `IBroke._commissionReport`: the report is correlated through the
`_executions` map (`execId -> orderId`) and then the `_orders` map; when a
correlated order is found, bounded values are accrued and the order
handlers are called (`true` flag); otherwise only an error is logged. -/
def commissionReportMsg (orders : List (Nat × Order)) (execs : List (String × Nat))
    (r : CommissionReport) : Option Order × Bool :=
  match (execs.lookup r.m_execId).bind orders.lookup with
  | none => (none, false)
  | some o => (some (commissionAccrue o r), true)

/-- `IBroke.get_cost` (ibroke.py lines 422-428): a pure read of the
position map `instId -> (position, average cost)`.  A missing entry returns
`None` (with a warning); otherwise the source returns `pos[1] or None`,
which collapses both a stored `None` and a stored `0` cost to `None`.
The stored cost is `Option Rat` because `_handle_contract_details` seeds
entries with `(0, None)`. -/
def get_cost (positions : List (Nat × (Int × Option Rat))) (instId : Nat) : Option Rat :=
  match positions.lookup instId with
  | none => none
  | some pc =>
    match pc.2 with
    | none => none
    | some c => if c = 0 then none else some c

/-
Tick aggregator (`class Ticumulator`).  Fields that start as `float('NaN')`
are `Option Rat` with `none` for `NaN`; `sum_last` can become `NaN` in the
source (if a `lastsize` arrives before any `last`), so it is `Option Rat`
too, while `sum_vol` only ever accumulates validated finite sizes and stays
a plain `Rat`.
-/

/-- Python `max(a, value)` on a possibly-`NaN` float `a` and a finite
`value`: `max` returns the second argument only when it compares strictly
greater, and every comparison with `NaN` is false. -/
def pymax (a : Option Rat) (v : Rat) : Option Rat :=
  match a with
  | none => none
  | some x => some (if x < v then v else x)

/-- Python `min(a, value)` on a possibly-`NaN` float `a` and a finite
`value` (see `pymax`). -/
def pymin (a : Option Rat) (v : Rat) : Option Rat :=
  match a with
  | none => none
  | some x => some (if v < x then v else x)

/-- Float addition with `NaN` propagation. -/
def oadd (a b : Option Rat) : Option Rat :=
  match a, b with
  | some x, some y => some (x + y)
  | _, _ => none

/-- Float multiplication with `NaN` propagation (the source never multiplies
an infinity by zero here, so `NaN` only arises from `NaN` inputs). -/
def omul (a b : Option Rat) : Option Rat :=
  match a, b with
  | some x, some y => some (x * y)
  | _, _ => none

/-- Float division of a possibly-`NaN` numerator by a nonzero finite
denominator. -/
def odiv (a : Option Rat) (b : Rat) : Option Rat :=
  match a with
  | none => none
  | some x => some (x / b)

/-- The accumulator state of `class Ticumulator` (ibroke.py lines 974-1061).
`open_` models the source's `open` attribute (a Lean keyword). -/
structure Ticumulator where
  time : Option Rat
  bid : Option Rat
  bidsize : Option Rat
  ask : Option Rat
  asksize : Option Rat
  last : Option Rat
  lastsize : Option Rat
  lasttime : Option Rat
  volume : Option Rat
  open_interest : Option Rat
  open_ : Option Rat
  high : Option Rat
  low : Option Rat
  close : Option Rat
  sum_last : Option Rat
  sum_vol : Rat
  deriving DecidableEq

/-- `Ticumulator.__init__`: every input and OHLC field starts as `NaN`;
the VWAP accumulators start at `0.0`. -/
def Ticumulator.init : Ticumulator :=
  { time := none, bid := none, bidsize := none, ask := none, asksize := none,
    last := none, lastsize := none, lasttime := none, volume := none,
    open_interest := none, open_ := none, high := none, low := none,
    close := none, sum_last := some 0, sum_vol := 0 }

/-- Membership in `Ticumulator.INPUT_FIELDS[1:]` (every valid `what` for
`add()`; note `'time'` itself is excluded). -/
def validWhat (w : String) : Bool :=
  ["bid", "bidsize", "ask", "asksize", "last", "lastsize", "lasttime",
   "volume", "open_interest"].contains w

/-- The `setattr(self, what, value)` step of `Ticumulator.add` for a valid
`what`. -/
def setField (t : Ticumulator) (w : String) (v : Rat) : Ticumulator :=
  if w == "bid" then { t with bid := some v }
  else if w == "bidsize" then { t with bidsize := some v }
  else if w == "ask" then { t with ask := some v }
  else if w == "asksize" then { t with asksize := some v }
  else if w == "last" then { t with last := some v }
  else if w == "lastsize" then { t with lastsize := some v }
  else if w == "lasttime" then { t with lasttime := some v }
  else if w == "volume" then { t with volume := some v }
  else if w == "open_interest" then { t with open_interest := some v }
  else t

/-- `Ticumulator.add(what, value)` (ibroke.py lines 1011-1033); `now` is the
`time.time()` read performed on entry.  The boolean is `true` when the
source raises `ValueError` (invalid `what`, or a negative value — the
source also rejects non-finite values, which have no `Rat` counterpart);
the returned state then carries exactly the mutations made before the
raise (only `time`).  On the `last` branch, OHLC is seeded on the very
first trade and then widened; on the `lastsize` branch, the VWAP running
sums are advanced by `last * lastsize`. -/
def Ticumulator.add (t : Ticumulator) (what : String) (value : Rat) (now : Rat) :
    Ticumulator × Bool :=
  let t1 := { t with time := some now }
  if validWhat what = false then (t1, true)
  else if value < 0 then (t1, true)
  else
    let t2 := setField t1 what value
    let t3 :=
      if what == "last" then
        let t2a := if t2.open_ = none then
            { t2 with open_ := some value, high := some value,
                      low := some value, close := some value }
          else t2
        { t2a with high := pymax t2a.high value, low := pymin t2a.low value,
                   close := some value }
      else t2
    if what == "lastsize" then
      ({ t3 with sum_last := oadd t3.sum_last (omul t3.last t3.lastsize),
                 sum_vol := t3.sum_vol + value }, false)
    else (t3, false)

/-- The `vwap` property: `sum_last / sum_vol` if `sum_vol` is truthy
(nonzero), else `0.0`. -/
def Ticumulator.vwap (t : Ticumulator) : Option Rat :=
  if t.sum_vol = 0 then some 0 else odiv t.sum_last t.sum_vol

/-- The immutable snapshot returned by `Ticumulator.peek` / `bar` (the
`Bar` namedtuple of ibroke.py). -/
structure BarSnap where
  time : Option Rat
  bid : Option Rat
  bidsize : Option Rat
  ask : Option Rat
  asksize : Option Rat
  last : Option Rat
  lastsize : Option Rat
  lasttime : Option Rat
  open_ : Option Rat
  high : Option Rat
  low : Option Rat
  close : Option Rat
  vwap : Option Rat
  volume : Option Rat
  open_interest : Option Rat
  deriving DecidableEq

/-- `Ticumulator.peek` (ibroke.py lines 1054-1061): the current snapshot,
with `time` stamped from the wall clock; does not affect the accumulators. -/
def Ticumulator.peek (t : Ticumulator) (now : Rat) : BarSnap :=
  { time := some now, bid := t.bid, bidsize := t.bidsize, ask := t.ask,
    asksize := t.asksize, last := t.last, lastsize := t.lastsize,
    lasttime := t.lasttime, open_ := t.open_, high := t.high, low := t.low,
    close := t.close, vwap := t.vwap, volume := t.volume,
    open_interest := t.open_interest }

/-- `Ticumulator.bar` (ibroke.py lines 1039-1052): returns the `peek`
snapshot, then resets the accumulators for the next bar
(`open = close; high = last; low = last; sum_last = sum_vol = 0.0`). -/
def Ticumulator.bar (t : Ticumulator) (now : Rat) : BarSnap × Ticumulator :=
  (t.peek now,
   { t with open_ := t.close, high := t.last, low := t.last,
            sum_last := some 0, sum_vol := 0 })

/-- One externally driven operation on a `Ticumulator`: an `add` call (which
may raise, leaving the raised-upon state) or a `bar` call. -/
inductive TickOp where
  | add (what : String) (value : Rat) (now : Rat)
  | bar (now : Rat)
  deriving DecidableEq

/-- Apply one operation, keeping the post-state (for a raising `add`, the
state at the moment of the raise, as the exception leaves the mutated
object behind). -/
def applyOp (t : Ticumulator) : TickOp → Ticumulator
  | .add w v now => (t.add w v now).1
  | .bar now => (t.bar now).2

/-- The `Ticumulator` state reached from a fresh instance by a sequence of
operations. -/
def runOps (ops : List TickOp) : Ticumulator :=
  ops.foldl applyOp Ticumulator.init

/-- An event since the last bar, as seen by the aggregator: a trade is the
RTVOLUME-driven pair `add('last', p)` then `add('lastsize', s)`
(`IBroke._tickString`), and a quote is any other single `add` (bid/ask
sizes and prices, `lasttime`, `volume`, `open_interest`, or even an invalid
field name). -/
inductive TQEv where
  | trade (p s : Rat)
  | quote (w : String) (v : Rat)
  deriving DecidableEq

/-- Validity of an event for the VWAP claim: trades carry nonnegative price
and size (the feed's values, which `add` would otherwise reject), quotes
touch neither `last` nor `lastsize`. -/
def TQEv.ok : TQEv → Prop
  | .trade p s => 0 ≤ p ∧ 0 ≤ s
  | .quote w _ => w ≠ "last" ∧ w ≠ "lastsize"

instance : DecidablePred TQEv.ok := fun e =>
  match e with
  | .trade p s => inferInstanceAs (Decidable (0 ≤ p ∧ 0 ≤ s))
  | .quote w _ => inferInstanceAs (Decidable (w ≠ "last" ∧ w ≠ "lastsize"))

/-- The trade contribution `price * size` summed over a list of events. -/
def sumPS : List TQEv → Rat
  | [] => 0
  | .trade p s :: rest => p * s + sumPS rest
  | .quote _ _ :: rest => sumPS rest

/-- The trade sizes summed over a list of events. -/
def sumS : List TQEv → Rat
  | [] => 0
  | .trade _ s :: rest => s + sumS rest
  | .quote _ _ :: rest => sumS rest

/-- Apply one trade or quote event (wall-clock values are irrelevant to the
accumulators other than `time`, so they are fixed at 0). -/
def applyTQ (t : Ticumulator) : TQEv → Ticumulator
  | .trade p s => ((t.add ("last") p 0).1.add ("lastsize") s 0).1
  | .quote w v => (t.add w v 0).1

/-- Apply a sequence of trade/quote events. -/
def applyTQs (t : Ticumulator) (evs : List TQEv) : Ticumulator :=
  evs.foldl applyTQ t

/-
Recurring scheduler (`class RecurringTask`, ibroke.py lines 1064-1102).
The loop body is

    start = time.time(); self._func(); self._functime += self.interval_sec
    if self._functime - start > 0: time.sleep(self._functime - start)

We model real time by the duration of each `_func()` invocation, given as a
list; sleeps are exact.  `functime` is the scheduled fire time the source
maintains; `now` is the wall clock at the top of the loop (the moment the
next fire happens).
-/

/-- The scheduler's state between two loop iterations of
`RecurringTask.run`. -/
structure RTState where
  functime : Rat
  now : Rat
  deriving DecidableEq

/-- One iteration of the `RecurringTask.run` loop: the callback fires at
`s.now` and runs for `dur`; the scheduled time advances by exactly one
period; the thread then sleeps `functime - start` (computed from the
iteration's start, before the callback ran) when that is positive.
Returns the next state and the fire time of this iteration. -/
def rtStep (interval_sec : Rat) (s : RTState) (dur : Rat) : RTState × Rat :=
  let start := s.now
  let endf := start + dur
  let functime := s.functime + interval_sec
  let now' := if 0 < functime - start then endf + (functime - start) else endf
  ({ functime := functime, now := now' }, start)

/-- Run the loop for one iteration per listed duration, collecting the fire
times (the `_running` flag merely bounds how many iterations we observe). -/
def rtIter (interval_sec : Rat) (s : RTState) : List Rat → RTState × List Rat
  | [] => (s, [])
  | dur :: rest =>
    let sr := rtStep interval_sec s dur
    let rec' := rtIter interval_sec sr.1 rest
    (rec'.1, sr.2 :: rec'.2)

/-- Fire times of `RecurringTask.run` started at time `t0` (where
`self._functime = time.time()` is taken just before the loop). -/
def rtRun (interval_sec t0 : Rat) (durs : List Rat) : List Rat :=
  (rtIter interval_sec { functime := t0, now := t0 } durs).2

/-- The scheduler state after the whole run. -/
def rtFinal (interval_sec t0 : Rat) (durs : List Rat) : RTState :=
  (rtIter interval_sec { functime := t0, now := t0 } durs).1

/-- Modelled from the spec's words, for comparison with `rtStep`: the next
scheduled time advances by exactly one period from the previous scheduled
time, and the thread then sleeps only the remaining time — measured when
the sleep starts, i.e. after the callback returned — when positive,
firing immediately (no sleep) when the callback overran. -/
def claimStep (interval_sec : Rat) (s : RTState) (dur : Rat) : RTState × Rat :=
  let start := s.now
  let endf := start + dur
  let functime := s.functime + interval_sec
  let now' := if 0 < functime - endf then functime else endf
  ({ functime := functime, now := now' }, start)

/-- The claim-side run (see `claimStep`). -/
def claimIter (interval_sec : Rat) (s : RTState) : List Rat → RTState × List Rat
  | [] => (s, [])
  | dur :: rest =>
    let sr := claimStep interval_sec s dur
    let rec' := claimIter interval_sec sr.1 rest
    (rec'.1, sr.2 :: rec'.2)

/-- Fire times under the claim's reading of the sleep rule. -/
def claimRun (interval_sec t0 : Rat) (durs : List Rat) : List Rat :=
  (claimIter interval_sec { functime := t0, now := t0 } durs).2

/-
Instrument resolution: `choose_best_contract` (ibroke.py lines 1123-1137)
and `IBroke._handle_contract_details` (lines 282-301).
-/

/-- The contract fields relevant to resolution (`m_summary` of a
`ContractDetails`). -/
structure Contract where
  m_conId : Nat
  m_symbol : String
  m_secType : String
  m_expiry : String
  deriving DecidableEq

/-- A `ContractDetails` candidate as used by `choose_best_contract`. -/
structure ContractDetails where
  m_summary : Contract
  m_contractMonth : String
  deriving DecidableEq

/-- Python's `min(details, key=lambda det: det.m_contractMonth)`: fold,
replacing the current best only on a strictly smaller key, so the first
minimal element wins. -/
def minByMonth (best : ContractDetails) : List ContractDetails → ContractDetails
  | [] => best
  | d :: rest =>
    minByMonth (if d.m_contractMonth < best.m_contractMonth then d else best) rest

/-- `choose_best_contract(details)`: `None` for an empty list, the sole
element for a singleton; for several candidates, the nearest contract month
when the security types are uniformly `'FUT'`, and `None` (the documented
"no unambiguous best") otherwise. -/
def choose_best_contract : List ContractDetails → Option ContractDetails
  | [] => none
  | [d] => some d
  | d :: rest =>
    if (d :: rest).all (fun x => x.m_summary.m_secType == "FUT")
    then some (minByMonth d rest)
    else none

/-- A Python exception as observable from `_handle_contract_details`:
either a deliberately raised `ValueError` or the `AttributeError` crash of
an attribute access on a non-contract object. -/
inductive PyErr where
  | valueError (msg : String)
  | attributeError (msg : String)
  deriving DecidableEq

/-- Whether a resolution outcome is a deliberately raised `ValueError`. -/
def isValueError : Except PyErr Contract → Bool
  | .error (.valueError _) => true
  | _ => false

/-- One item delivered into the `self._contract_details[req_id]` queue
before the terminating `None`: a candidate from `_contractDetails`, or the
`ValueError` that `_error` enqueues for a contract-request error such as
code 200 ("No security definition has been found"). -/
inductive DetailsItem where
  | detail (d : ContractDetails)
  | err (msg : String)
  deriving DecidableEq

/-- `some` of the candidate list when every item is a candidate, `none` as
soon as an exception object sits among them. -/
def detailsOnly : List DetailsItem → Option (List ContractDetails)
  | [] => some []
  | .detail d :: rest => (detailsOnly rest).map (fun l => d :: l)
  | .err _ :: _ => none

/-- `IBroke._handle_contract_details` on the item sequence collected from
the queue (everything up to the terminating `None`, or whatever arrived
before the `timeout_sec` queue timeout).  An empty collection raises
`ValueError('Timed out looking for matching contracts for request ID')`
(the source's message, whose format placeholder is itself missing); an
exception in first position is re-raised; otherwise `choose_best_contract`
picks the best candidate — but the source dereferences
`best.m_summary` without a `None` check, so an ambiguous candidate set (or
an exception object hiding after a candidate) crashes with an
`AttributeError` instead of a deliberate error.  `Instrument.__init__`
raises `ValueError` when the chosen contract has no `conId`. -/
def handleContractDetails (items : List DetailsItem) : Except PyErr Contract :=
  match items with
  | [] => .error (.valueError ("Timed out looking for matching contracts for request ID"))
  | .err m :: _ => .error (.valueError m)
  | .detail d :: rest =>
    match detailsOnly rest with
    | none => .error (.attributeError ("m_summary"))
    | some ds =>
      match choose_best_contract (d :: ds) with
      | none => .error (.attributeError ("m_summary"))
      | some best =>
        if best.m_summary.m_conId = 0 then
          .error (.valueError ("Contract must have conId (obtained from contractDetails())."))
        else .ok best.m_summary

/-- A `Cancelled` order-status message for order 1. -/
def cancelMsg : OrderStatusMsg :=
  { orderId := 1, status := "Cancelled", filled := 0, avgFillPrice := 0 }

/-- A fully-filled order-status message for order 1 (status `Filled`,
cumulative filled 5). -/
def fillMsg5 : OrderStatusMsg :=
  { orderId := 1, status := "Filled", filled := 5, avgFillPrice := 2 }

/-- A future candidate with contract month 2017-03. -/
def futA : ContractDetails :=
  { m_summary := { m_conId := 11, m_symbol := "ES", m_secType := "FUT",
                   m_expiry := "20170317" }, m_contractMonth := "201703" }

/-- A future candidate with contract month 2016-12 (the nearest of the
three). -/
def futB : ContractDetails :=
  { m_summary := { m_conId := 12, m_symbol := "ES", m_secType := "FUT",
                   m_expiry := "20161216" }, m_contractMonth := "201612" }

/-- A future candidate with contract month 2017-06. -/
def futC : ContractDetails :=
  { m_summary := { m_conId := 13, m_symbol := "ES", m_secType := "FUT",
                   m_expiry := "20170616" }, m_contractMonth := "201706" }

/-- A stock candidate (one of two ambiguous matches). -/
def stkA : ContractDetails :=
  { m_summary := { m_conId := 21, m_symbol := "FOO", m_secType := "STK",
                   m_expiry := "" }, m_contractMonth := "" }

/-- A second stock candidate with a different contract id. -/
def stkB : ContractDetails :=
  { m_summary := { m_conId := 22, m_symbol := "FOO", m_secType := "STK",
                   m_expiry := "" }, m_contractMonth := "" }

/-
Helper lemmas about the order ledger.
-/

theorem openTimeStep_filled (o : Order) (now : Rat) :
    (openTimeStep o now).filled = o.filled := by
  unfold openTimeStep; split <;> rfl

theorem openTimeStep_quantity (o : Order) (now : Rat) :
    (openTimeStep o now).quantity = o.quantity := by
  unfold openTimeStep; split <;> rfl

theorem openTimeStep_cancelled (o : Order) (now : Rat) :
    (openTimeStep o now).cancelled = o.cancelled := by
  unfold openTimeStep; split <;> rfl

theorem openTimeStep_openFlag (o : Order) (now : Rat) :
    (openTimeStep o now).openFlag = o.openFlag := by
  unfold openTimeStep; split <;> rfl

theorem openTimeStep_openTime_ne (o : Order) (now : Rat) :
    (openTimeStep o now).openTime ≠ none := by
  unfold openTimeStep; split
  · simp
  · simp_all

theorem openTimeStep_of_ne (o : Order) (now : Rat) (h : o.openTime ≠ none) :
    openTimeStep o now = o := by
  unfold openTimeStep; exact if_neg h

theorem natAbs_copysign (x : Nat) (y : Int) : (copysign x y).natAbs = x := by
  unfold copysign; split <;> simp

theorem copysign_nonneg (x : Nat) (y : Int) (h : 0 ≤ y) : 0 ≤ copysign x y := by
  unfold copysign
  split
  · omega
  · exact Int.ofNat_nonneg x

theorem copysign_nonpos (x : Nat) (y : Int) (h : y < 0) : copysign x y ≤ 0 := by
  unfold copysign
  rw [if_pos h]
  omega

theorem statusIsCancel_submitted : statusIsCancel ("Submitted") = false := by decide

theorem statusIsCancel_filled : statusIsCancel ("Filled") = false := by decide

theorem orderStatusUpdate_cancel (o : Order) (m : OrderStatusMsg) (now : Rat)
    (h : statusIsCancel m.status = true) :
    orderStatusUpdate o m now =
      ({ openTimeStep o now with cancelled := true, openFlag := false }, false) := by
  simp [orderStatusUpdate, h]

theorem orderStatusUpdate_noCancel_miss (o : Order) (m : OrderStatusMsg) (now : Rat)
    (h : statusIsCancel m.status = false) (h2 : ¬ o.filled.natAbs < m.filled) :
    orderStatusUpdate o m now = (openTimeStep o now, false) := by
  simp [orderStatusUpdate, h, openTimeStep_filled, h2]

theorem orderStatusUpdate_hit_filled (o : Order) (m : OrderStatusMsg) (now : Rat)
    (h : statusIsCancel m.status = false) (h2 : o.filled.natAbs < m.filled) :
    (orderStatusUpdate o m now).1.filled = copysign m.filled o.quantity := by
  simp only [orderStatusUpdate, h, Bool.false_eq_true, if_false, openTimeStep_filled, h2,
    if_true, openTimeStep_quantity]
  split <;> rfl

theorem orderStatusUpdate_hit_called (o : Order) (m : OrderStatusMsg) (now : Rat)
    (h : statusIsCancel m.status = false) (h2 : o.filled.natAbs < m.filled) :
    (orderStatusUpdate o m now).2 = true := by
  simp only [orderStatusUpdate, h, Bool.false_eq_true, if_false, openTimeStep_filled, h2, if_true]

theorem orderStatusUpdate_quantity (o : Order) (m : OrderStatusMsg) (now : Rat) :
    (orderStatusUpdate o m now).1.quantity = o.quantity := by
  simp only [orderStatusUpdate]
  split
  · simp [openTimeStep_quantity]
  · split
    · split <;> simp [openTimeStep_quantity]
    · simp [openTimeStep_quantity]

theorem orderStatusUpdate_openTime_ne (o : Order) (m : OrderStatusMsg) (now : Rat) :
    (orderStatusUpdate o m now).1.openTime ≠ none := by
  simp only [orderStatusUpdate]
  split
  · simp [openTimeStep_openTime_ne]
  · split
    · split <;> simp [openTimeStep_openTime_ne]
    · simp [openTimeStep_openTime_ne]

theorem execDetailsUpdate_miss (o : Order) (e : Execution) (now : Rat)
    (h2 : ¬ o.filled.natAbs < e.m_cumQty) :
    execDetailsUpdate o e now = openTimeStep o now := by
  simp [execDetailsUpdate, openTimeStep_filled, h2]

theorem execDetailsUpdate_hit_filled (o : Order) (e : Execution) (now : Rat)
    (h2 : o.filled.natAbs < e.m_cumQty) :
    (execDetailsUpdate o e now).filled = copysign e.m_cumQty o.quantity := by
  simp only [execDetailsUpdate, openTimeStep_filled, h2, if_true, openTimeStep_quantity]
  split <;> rfl

theorem execDetailsUpdate_quantity (o : Order) (e : Execution) (now : Rat) :
    (execDetailsUpdate o e now).quantity = o.quantity := by
  simp only [execDetailsUpdate]
  split
  · split <;> simp [openTimeStep_quantity]
  · simp [openTimeStep_quantity]

theorem execDetailsUpdate_openTime_ne (o : Order) (e : Execution) (now : Rat) :
    (execDetailsUpdate o e now).openTime ≠ none := by
  simp only [execDetailsUpdate]
  split
  · split <;> simp [openTimeStep_openTime_ne]
  · simp [openTimeStep_openTime_ne]

/-- Case analysis of one fill notification: the quantity never changes, and
`filled` either stays put or becomes the sign-corrected notified cumulative
quantity — the latter only when that cumulative strictly exceeds the
current magnitude. -/
theorem applyFill_spec (o : Order) (ev : FillEv) :
    (applyFill o ev).quantity = o.quantity ∧
    ((applyFill o ev).filled = o.filled ∨
     ((applyFill o ev).filled = copysign ev.cum o.quantity ∧ o.filled.natAbs < ev.cum)) := by
  cases ev with
  | statusFill c p =>
    by_cases h2 : o.filled.natAbs < c
    · refine ⟨orderStatusUpdate_quantity o _ 0, Or.inr ⟨?_, h2⟩⟩
      exact orderStatusUpdate_hit_filled o _ 0 statusIsCancel_submitted h2
    · rw [applyFill, orderStatusUpdate_noCancel_miss o _ 0 statusIsCancel_submitted h2]
      exact ⟨openTimeStep_quantity o 0, Or.inl (openTimeStep_filled o 0)⟩
  | execFill c p =>
    by_cases h2 : o.filled.natAbs < c
    · refine ⟨execDetailsUpdate_quantity o _ 0, Or.inr ⟨?_, h2⟩⟩
      exact execDetailsUpdate_hit_filled o _ 0 h2
    · rw [applyFill, execDetailsUpdate_miss o _ 0 h2]
      exact ⟨openTimeStep_quantity o 0, Or.inl (openTimeStep_filled o 0)⟩

theorem applyFill_natAbs_mono (o : Order) (ev : FillEv) :
    o.filled.natAbs ≤ (applyFill o ev).filled.natAbs := by
  rcases (applyFill_spec o ev).2 with h | ⟨h, hlt⟩
  · rw [h]
  · rw [h, natAbs_copysign]
    exact Nat.le_of_lt hlt

theorem applyFills_append (o : Order) (l1 l2 : List FillEv) :
    applyFills o (l1 ++ l2) = applyFills (applyFills o l1) l2 := by
  simp [applyFills, List.foldl_append]

theorem applyFills_natAbs_mono (o : Order) (evs : List FillEv) :
    o.filled.natAbs ≤ (applyFills o evs).filled.natAbs := by
  induction evs generalizing o with
  | nil => exact Nat.le_refl _
  | cons e rest ih =>
    calc o.filled.natAbs ≤ (applyFill o e).filled.natAbs := applyFill_natAbs_mono o e
      _ ≤ _ := ih (applyFill o e)

theorem applyFills_sign (o : Order) (evs : List FillEv)
    (h1 : 0 < o.quantity → 0 ≤ o.filled) (h2 : o.quantity < 0 → o.filled ≤ 0) :
    (0 < o.quantity → 0 ≤ (applyFills o evs).filled) ∧
    (o.quantity < 0 → (applyFills o evs).filled ≤ 0) := by
  induction evs generalizing o with
  | nil => exact ⟨h1, h2⟩
  | cons e rest ih =>
    have hq := (applyFill_spec o e).1
    have step1 : 0 < o.quantity → 0 ≤ (applyFill o e).filled := by
      intro hpos
      rcases (applyFill_spec o e).2 with h | ⟨h, _⟩
      · rw [h]; exact h1 hpos
      · rw [h]; exact copysign_nonneg _ _ (le_of_lt hpos)
    have step2 : o.quantity < 0 → (applyFill o e).filled ≤ 0 := by
      intro hneg
      rcases (applyFill_spec o e).2 with h | ⟨h, _⟩
      · rw [h]; exact h2 hneg
      · rw [h]; exact copysign_nonpos _ _ hneg
    have hrec := ih (applyFill o e) (by rw [hq]; exact step1) (by rw [hq]; exact step2)
    rw [hq] at hrec
    exact hrec

theorem applyFills_bound (o : Order) (evs : List FillEv)
    (hb : o.filled.natAbs ≤ o.quantity.natAbs)
    (hevs : ∀ ev ∈ evs, FillEv.cum ev ≤ o.quantity.natAbs) :
    (applyFills o evs).filled.natAbs ≤ o.quantity.natAbs := by
  induction evs generalizing o with
  | nil => exact hb
  | cons e rest ih =>
    have hq := (applyFill_spec o e).1
    have hstep : (applyFill o e).filled.natAbs ≤ o.quantity.natAbs := by
      rcases (applyFill_spec o e).2 with h | ⟨h, _⟩
      · rw [h]; exact hb
      · rw [h, natAbs_copysign]
        exact hevs e (List.mem_cons_self e rest)
    have hrec := ih (applyFill o e) (by rw [hq]; exact hstep)
      (by intro ev hev; rw [hq]; exact hevs ev (List.mem_cons_of_mem e hev))
    rw [hq] at hrec
    exact hrec

theorem Order.set_flags_eq (x : Order) (h1 : x.cancelled = true) (h2 : x.openFlag = false) :
    ({ x with cancelled := true, openFlag := false } : Order) = x := by
  cases x
  simp_all

/-- C1 counterexample: the ledger trusts the broker-reported cumulative
quantity, so a single fill notification of cumulative 10 (trivially a
non-decreasing sequence) drives a 5-share order's `filled` magnitude to 10,
strictly above the requested quantity's magnitude; the claim's "never
exceeds the requested quantity in magnitude" fails without the extra
assumption that notifications stay within the order's quantity. -/
theorem C1_counterexample :
    List.Chain' (fun a b => FillEv.cum a ≤ FillEv.cum b) [FillEv.statusFill 10 1] ∧
    order5.quantity.natAbs < (applyFills order5 [FillEv.statusFill 10 1]).filled.natAbs := by
  constructor
  · exact List.chain'_singleton _
  · decide

/-- C1 (amended): for an order whose `filled` agrees in sign with
`quantity` and is bounded by it in magnitude, and any sequence of fill
notifications with non-decreasing cumulative magnitude **each of which stays
within the requested quantity's magnitude**, the `filled` magnitude is
non-decreasing along the sequence, keeps the sign of `quantity`, and never
exceeds `quantity` in magnitude. -/
theorem C1_filled_monotone_signed_bounded (o : Order) (evs l1 l2 : List FillEv)
    (hchain : List.Chain' (fun a b => FillEv.cum a ≤ FillEv.cum b) evs)
    (hsign1 : 0 < o.quantity → 0 ≤ o.filled)
    (hsign2 : o.quantity < 0 → o.filled ≤ 0)
    (hb : o.filled.natAbs ≤ o.quantity.natAbs)
    (hevs : ∀ ev ∈ evs, FillEv.cum ev ≤ o.quantity.natAbs)
    (hsplit : evs = l1 ++ l2) :
    (applyFills o l1).filled.natAbs ≤ (applyFills o evs).filled.natAbs ∧
    (0 < o.quantity → 0 ≤ (applyFills o evs).filled) ∧
    (o.quantity < 0 → (applyFills o evs).filled ≤ 0) ∧
    (applyFills o evs).filled.natAbs ≤ o.quantity.natAbs := by
  subst hsplit
  refine ⟨?_, (applyFills_sign o _ hsign1 hsign2).1,
    (applyFills_sign o _ hsign1 hsign2).2, applyFills_bound o _ hb hevs⟩
  rw [applyFills_append]
  exact applyFills_natAbs_mono _ l2

/-- C1 witness: the amended theorem applied to the fresh 5-share buy order
and the in-bound notification sequence `[2, 5]` delivered through
`orderStatus` and `execDetails`. -/
theorem C1_witness :
    (applyFills order5 [FillEv.statusFill 2 1]).filled.natAbs ≤
      (applyFills order5 [FillEv.statusFill 2 1, FillEv.execFill 5 1]).filled.natAbs ∧
    (applyFills order5 [FillEv.statusFill 2 1, FillEv.execFill 5 1]).filled.natAbs ≤
      order5.quantity.natAbs :=
  ⟨(C1_filled_monotone_signed_bounded order5 [FillEv.statusFill 2 1, FillEv.execFill 5 1]
      [FillEv.statusFill 2 1] [FillEv.execFill 5 1]
      (by simp [FillEv.cum]) (by decide) (by decide) (by decide) (by decide) rfl).1,
   (C1_filled_monotone_signed_bounded order5 [FillEv.statusFill 2 1, FillEv.execFill 5 1]
      [FillEv.statusFill 2 1] [FillEv.execFill 5 1]
      (by simp [FillEv.cum]) (by decide) (by decide) (by decide) (by decide) rfl).2.2.2⟩

/-- C2 counterexample: deliver a cancel notification to a fresh 5-share
order, then a `Filled` order-status notification with cumulative 5: the
later fill is **not** ignored — `filled` moves from 0 to 5, the order
handlers fire, and the order ends both cancelled and fully filled, so
Filled and Cancelled are not mutually exclusive and the first-reached
state does not win. -/
theorem C2_counterexample :
    (orderStatusUpdate order5 cancelMsg 0).1.cancelled = true ∧
    (orderStatusUpdate order5 cancelMsg 0).1.filled = 0 ∧
    (orderStatusUpdate (orderStatusUpdate order5 cancelMsg 0).1 fillMsg5 1).1.filled = 5 ∧
    (orderStatusUpdate (orderStatusUpdate order5 cancelMsg 0).1 fillMsg5 1).1.cancelled = true ∧
    (orderStatusUpdate (orderStatusUpdate order5 cancelMsg 0).1 fillMsg5 1).2 = true := by
  decide

/-- C2 (amended): `open`, once cleared, is never set again by
`_orderStatus`; a cancel notification always sets `cancelled` and clears
`open` while leaving `filled` untouched — even for a fully filled order —
and a non-cancel notification whose cumulative quantity strictly exceeds
the current filled magnitude is always applied (updating `filled` and
firing the order handlers) even on a cancelled order; `_openOrder`'s
`Cancelled` status likewise always sets `cancelled`.  Filled and Cancelled
are therefore not mutually exclusive terminal states. -/
theorem C2_cancel_fill_not_exclusive (o : Order) (m : OrderStatusMsg) (w : String) (t : Rat) :
    ((orderStatusUpdate o m t).1.openFlag = true → o.openFlag = true) ∧
    (statusIsCancel m.status = true →
      (orderStatusUpdate o m t).1.cancelled = true ∧
      (orderStatusUpdate o m t).1.openFlag = false ∧
      (orderStatusUpdate o m t).1.filled = o.filled) ∧
    (statusIsCancel m.status = false → o.filled.natAbs < m.filled →
      (orderStatusUpdate o m t).1.filled = copysign m.filled o.quantity ∧
      (orderStatusUpdate o m t).2 = true) ∧
    (openOrderUpdate o ("Cancelled") w t).cancelled = true := by
  refine ⟨?_, ?_, ?_, ?_⟩
  · simp only [orderStatusUpdate]
    split
    · simp
    · split
      · split
        · simp
        · simp [openTimeStep_openFlag]
      · simp [openTimeStep_openFlag]
  · intro h
    rw [orderStatusUpdate_cancel o m t h]
    exact ⟨rfl, rfl, openTimeStep_filled o t⟩
  · intro h h2
    exact ⟨orderStatusUpdate_hit_filled o m t h h2, orderStatusUpdate_hit_called o m t h h2⟩
  · simp only [openOrderUpdate]
    split <;> simp

/-- C2 witness: the amended theorem applied to a fully filled order (fill 5
of 5 delivered first): the subsequent cancel notification still sets
`cancelled`. -/
theorem C2_witness :
    statusIsCancel cancelMsg.status = true ∧
    (orderStatusUpdate (applyFills order5 [FillEv.statusFill 5 2]) cancelMsg 1).1.cancelled = true :=
  ⟨by decide,
   ((C2_cancel_fill_not_exclusive (applyFills order5 [FillEv.statusFill 5 2]) cancelMsg "" 1).2.1
      (by decide)).1⟩

/-- C8 (confirmed): delivering the same `orderStatus` notification twice
produces a final order state identical to delivering it once, and the
order-handler callback counts follow the merge rule: the duplicate delivery
never fires handlers, a cancel notification never fires them at all, and a
fill notification fires them exactly when its cumulative quantity strictly
exceeds the current filled magnitude. -/
theorem C8_duplicate_delivery_idempotent (o : Order) (m : OrderStatusMsg) (t1 t2 : Rat) :
    (orderStatusUpdate (orderStatusUpdate o m t1).1 m t2).1 = (orderStatusUpdate o m t1).1 ∧
    (orderStatusUpdate (orderStatusUpdate o m t1).1 m t2).2 = false ∧
    (statusIsCancel m.status = true → (orderStatusUpdate o m t1).2 = false) ∧
    (statusIsCancel m.status = false →
      ((orderStatusUpdate o m t1).2 = true ↔ o.filled.natAbs < m.filled)) := by
  by_cases hc : statusIsCancel m.status = true
  · have h1 := orderStatusUpdate_cancel o m t1 hc
    have hne : (orderStatusUpdate o m t1).1.openTime ≠ none := orderStatusUpdate_openTime_ne o m t1
    have h2 := orderStatusUpdate_cancel (orderStatusUpdate o m t1).1 m t2 hc
    rw [openTimeStep_of_ne _ _ hne] at h2
    have hflags : (orderStatusUpdate o m t1).1.cancelled = true ∧
        (orderStatusUpdate o m t1).1.openFlag = false := by
      rw [h1]
      exact ⟨rfl, rfl⟩
    refine ⟨?_, ?_, fun _ => by rw [h1], fun hf => absurd hc (by simp [hf])⟩
    · rw [h2]
      exact Order.set_flags_eq _ hflags.1 hflags.2
    · rw [h2]
  · have hcf : statusIsCancel m.status = false := by
      cases hcb : statusIsCancel m.status
      · rfl
      · exact absurd hcb hc
    have hne : (orderStatusUpdate o m t1).1.openTime ≠ none := orderStatusUpdate_openTime_ne o m t1
    by_cases h2 : o.filled.natAbs < m.filled
    · have hfst : (orderStatusUpdate o m t1).1.filled = copysign m.filled o.quantity :=
        orderStatusUpdate_hit_filled o m t1 hcf h2
      have hmiss : ¬ (orderStatusUpdate o m t1).1.filled.natAbs < m.filled := by
        rw [hfst, natAbs_copysign]
        exact Nat.lt_irrefl _
      have hr2 := orderStatusUpdate_noCancel_miss (orderStatusUpdate o m t1).1 m t2 hcf hmiss
      rw [openTimeStep_of_ne _ _ hne] at hr2
      refine ⟨by rw [hr2], by rw [hr2], fun hf => absurd hf (by simp [hcf]), fun _ => ?_⟩
      simp [orderStatusUpdate_hit_called o m t1 hcf h2, h2]
    · have hr1 := orderStatusUpdate_noCancel_miss o m t1 hcf h2
      have hmiss : ¬ (orderStatusUpdate o m t1).1.filled.natAbs < m.filled := by
        rw [hr1]
        simpa [openTimeStep_filled] using h2
      have hr2 := orderStatusUpdate_noCancel_miss (orderStatusUpdate o m t1).1 m t2 hcf hmiss
      rw [openTimeStep_of_ne _ _ hne] at hr2
      refine ⟨by rw [hr2], by rw [hr2], fun hf => absurd hf (by simp [hcf]), fun _ => ?_⟩
      rw [hr1]
      simp [h2]

/-- C8 witness: the idempotence theorem applied to a fresh 5-share order
and the `Filled` status notification: the duplicate changes nothing and the
first delivery fires the handlers precisely because 5 exceeds 0. -/
theorem C8_witness :
    (orderStatusUpdate (orderStatusUpdate order5 fillMsg5 0).1 fillMsg5 1).1 =
      (orderStatusUpdate order5 fillMsg5 0).1 ∧
    (orderStatusUpdate (orderStatusUpdate order5 fillMsg5 0).1 fillMsg5 1).2 = false ∧
    ((orderStatusUpdate order5 fillMsg5 0).2 = true ↔ order5.filled.natAbs < fillMsg5.filled) :=
  ⟨(C8_duplicate_delivery_idempotent order5 fillMsg5 0 1).1,
   (C8_duplicate_delivery_idempotent order5 fillMsg5 0 1).2.1,
   (C8_duplicate_delivery_idempotent order5 fillMsg5 0 1).2.2.2 (by decide)⟩

/-
Helper lemmas about the tick aggregator.
-/

theorem setField_close (t : Ticumulator) (w : String) (v : Rat) :
    (setField t w v).close = t.close := by
  simp only [setField]
  split_ifs <;> rfl

theorem setField_sum_last (t : Ticumulator) (w : String) (v : Rat) :
    (setField t w v).sum_last = t.sum_last := by
  simp only [setField]
  split_ifs <;> rfl

theorem setField_sum_vol (t : Ticumulator) (w : String) (v : Rat) :
    (setField t w v).sum_vol = t.sum_vol := by
  simp only [setField]
  split_ifs <;> rfl

theorem setField_last (t : Ticumulator) (w : String) (v : Rat)
    (hw : (w == "last") = false) :
    (setField t w v).last = t.last := by
  simp only [setField]
  split_ifs <;> simp_all

theorem add_close_eq_last (t : Ticumulator) (w : String) (v now : Rat)
    (hp : t.close = t.last) :
    (t.add w v now).1.close = (t.add w v now).1.last := by
  simp only [Ticumulator.add]
  split
  · simpa using hp
  · split
    · simpa using hp
    · by_cases hl : (w == "last") = true
      · have hwl : w = "last" := by simpa using hl
        subst hwl
        simp [setField]
        split <;> rfl
      · have hl' : (w == "last") = false := by simpa using hl
        by_cases hs : (w == "lastsize") = true
        · have hws : w = "lastsize" := by simpa using hs
          subst hws
          simpa [setField] using hp
        · have hs' : (w == "lastsize") = false := by simpa using hs
          simpa [hl', hs', setField_close, setField_last _ _ _ hl'] using hp

theorem applyOp_close_eq_last (t : Ticumulator) (op : TickOp)
    (hp : t.close = t.last) :
    (applyOp t op).close = (applyOp t op).last := by
  cases op with
  | add w v now => exact add_close_eq_last t w v now hp
  | bar now => simpa [applyOp, Ticumulator.bar] using hp

theorem runOps_close_eq_last (ops : List TickOp) :
    (runOps ops).close = (runOps ops).last := by
  suffices h : ∀ (t : Ticumulator), t.close = t.last →
      ∀ l : List TickOp, (l.foldl applyOp t).close = (l.foldl applyOp t).last by
    exact h Ticumulator.init rfl ops
  intro t hp l
  induction l generalizing t with
  | nil => exact hp
  | cons op rest ih => exact ih (applyOp t op) (applyOp_close_eq_last t op hp)

/-- C4 (confirmed): from any reachable `Ticumulator` state, calling `bar()`
and then immediately `peek()` (no intervening `add`) yields a snapshot
whose open, high, low and close all equal the close of the emitted bar
(collapsed to the prior close — in the no-trade-yet case all are the `NaN`
placeholder, modelled as `none`), and whose vwap is 0. -/
theorem C4_bar_then_peek (ops : List TickOp) (t1 t2 : Rat) :
    (((runOps ops).bar t1).2.peek t2).open_ = ((runOps ops).bar t1).1.close ∧
    (((runOps ops).bar t1).2.peek t2).high = ((runOps ops).bar t1).1.close ∧
    (((runOps ops).bar t1).2.peek t2).low = ((runOps ops).bar t1).1.close ∧
    (((runOps ops).bar t1).2.peek t2).close = ((runOps ops).bar t1).1.close ∧
    (((runOps ops).bar t1).2.peek t2).vwap = some 0 := by
  have h := runOps_close_eq_last ops
  refine ⟨?_, ?_, ?_, ?_, ?_⟩ <;>
    simp [Ticumulator.bar, Ticumulator.peek, Ticumulator.vwap, h]

theorem add_sums_other (t : Ticumulator) (w : String) (v now : Rat)
    (h1 : (w == "last") = false) (h2 : (w == "lastsize") = false) :
    (t.add w v now).1.sum_last = t.sum_last ∧ (t.add w v now).1.sum_vol = t.sum_vol ∧
    (t.add w v now).1.last = t.last := by
  simp only [Ticumulator.add]
  split
  · exact ⟨rfl, rfl, rfl⟩
  · split
    · exact ⟨rfl, rfl, rfl⟩
    · simp [h1, h2, setField_sum_last, setField_sum_vol, setField_last _ _ _ h1]

theorem add_last_state (t : Ticumulator) (p now : Rat) (hp : 0 ≤ p) :
    (t.add ("last") p now).1.sum_last = t.sum_last ∧
    (t.add ("last") p now).1.sum_vol = t.sum_vol ∧
    (t.add ("last") p now).1.last = some p := by
  simp only [Ticumulator.add]
  rw [if_neg (by decide), if_neg (by simpa using not_lt.mpr hp)]
  refine ⟨?_, ?_, ?_⟩ <;>
  · simp [setField]
    split <;> rfl

theorem add_lastsize_state (t : Ticumulator) (s now : Rat) (hs : 0 ≤ s) :
    (t.add ("lastsize") s now).1.sum_last = oadd t.sum_last (omul t.last (some s)) ∧
    (t.add ("lastsize") s now).1.sum_vol = t.sum_vol + s ∧
    (t.add ("lastsize") s now).1.last = t.last := by
  simp only [Ticumulator.add]
  rw [if_neg (by decide), if_neg (by simpa using not_lt.mpr hs)]
  refine ⟨?_, ?_, ?_⟩ <;> simp [setField]

theorem applyTQ_trade_sums (t : Ticumulator) (p s : Rat) (hp : 0 ≤ p) (hs : 0 ≤ s) :
    (applyTQ t (.trade p s)).sum_last = oadd t.sum_last (some (p * s)) ∧
    (applyTQ t (.trade p s)).sum_vol = t.sum_vol + s := by
  have h1 := add_last_state t p 0 hp
  have h2 := add_lastsize_state (t.add ("last") p 0).1 s 0 hs
  refine ⟨?_, ?_⟩
  · show ((t.add ("last") p 0).1.add ("lastsize") s 0).1.sum_last = _
    rw [h2.1, h1.1, h1.2.2]
    rfl
  · show ((t.add ("last") p 0).1.add ("lastsize") s 0).1.sum_vol = _
    rw [h2.2.1, h1.2.1]

theorem applyTQs_sums (t : Ticumulator) (evs : List TQEv) (a : Rat)
    (h0 : t.sum_last = some a)
    (hok : ∀ e ∈ evs, TQEv.ok e) :
    (applyTQs t evs).sum_last = some (a + sumPS evs) ∧
    (applyTQs t evs).sum_vol = t.sum_vol + sumS evs := by
  induction evs generalizing t a with
  | nil => simp [applyTQs, sumPS, sumS, h0]
  | cons e rest ih =>
    have hrest : ∀ x ∈ rest, TQEv.ok x := fun x hx => hok x (List.mem_cons_of_mem e hx)
    cases e with
    | trade p s =>
      obtain ⟨hp, hs⟩ : 0 ≤ p ∧ 0 ≤ s := hok _ (List.mem_cons_self _ _)
      have hstep := applyTQ_trade_sums t p s hp hs
      have hsl : (applyTQ t (.trade p s)).sum_last = some (a + p * s) := by
        rw [hstep.1, h0]
        rfl
      have hrec := ih (applyTQ t (.trade p s)) (a + p * s) hsl hrest
      constructor
      · show (applyTQs (applyTQ t (.trade p s)) rest).sum_last = _
        rw [hrec.1, sumPS]
        ring_nf
      · show (applyTQs (applyTQ t (.trade p s)) rest).sum_vol = _
        rw [hrec.2, hstep.2, sumS]
        ring
    | quote w v =>
      obtain ⟨hw1, hw2⟩ : w ≠ "last" ∧ w ≠ "lastsize" := hok _ (List.mem_cons_self _ _)
      have hstep := add_sums_other t w v 0 (by simpa using hw1) (by simpa using hw2)
      have hsl : (applyTQ t (.quote w v)).sum_last = some a := by
        show (t.add w v 0).1.sum_last = some a
        rw [hstep.1, h0]
      have hrec := ih (applyTQ t (.quote w v)) a hsl hrest
      constructor
      · show (applyTQs (applyTQ t (.quote w v)) rest).sum_last = _
        rw [hrec.1, sumPS]
      · show (applyTQs (applyTQ t (.quote w v)) rest).sum_vol = _
        rw [hrec.2, sumS]
        show (t.add w v 0).1.sum_vol + sumS rest = _
        rw [hstep.2.1]

theorem add_ok_no_raise (t : Ticumulator) (w : String) (v now : Rat)
    (h1 : ¬ validWhat w = false) (hv : ¬ v < 0) :
    (t.add w v now).2 = false := by
  simp only [Ticumulator.add]
  rw [if_neg h1, if_neg hv]
  split <;> rfl

/-- C5 (confirmed): from any state whose VWAP accumulators are freshly
reset (as after `bar()` or on creation), after a sequence of trade events
interleaved with arbitrary non-trade updates, `vwap` equals the sum of
(trade price x trade size) divided by the sum of trade sizes when any
trade volume occurred, and 0 otherwise. -/
theorem C5_vwap_quotient (t : Ticumulator) (evs : List TQEv)
    (h0 : t.sum_last = some 0) (h1 : t.sum_vol = 0)
    (hok : ∀ e ∈ evs, TQEv.ok e) :
    (applyTQs t evs).vwap =
      (if sumS evs = 0 then some 0 else some (sumPS evs / sumS evs)) := by
  have hs := applyTQs_sums t evs 0 h0 hok
  rw [Ticumulator.vwap, hs.1, hs.2, h1, zero_add, zero_add]
  split <;> simp [odiv]

/-- C5 witness: trades (price 10, size 2) and (price 12, size 2) since the
last bar give `vwap = (10*2+12*2)/(2+2) = 11`. -/
theorem C5_witness :
    (applyTQs Ticumulator.init [TQEv.trade 10 2, TQEv.trade 12 2]).vwap = some 11 := by
  have h := C5_vwap_quotient Ticumulator.init [TQEv.trade 10 2, TQEv.trade 12 2]
    rfl rfl (by norm_num [List.forall_mem_cons, TQEv.ok])
  rw [h]
  norm_num [sumPS, sumS]

/-- C9 (confirmed): whenever `Ticumulator.add` raises `ValueError` — which
happens exactly when `what` is not a valid input field or the value is
negative (non-finite floats have no counterpart among the rationals) — the
accumulator is left with every field unchanged except `time`, which was
already stamped to the current clock before validation, so the rejection is
not atomic with respect to the timestamp. -/
theorem C9_add_raise_updates_time_only (t : Ticumulator) (w : String) (v now : Rat)
    (h : (t.add w v now).2 = true) :
    (t.add w v now).1 = { t with time := some now } ∧
    (validWhat w = false ∨ v < 0) := by
  by_cases h1 : validWhat w = false
  · constructor
    · simp [Ticumulator.add, h1]
    · exact Or.inl h1
  · by_cases hv : v < 0
    · constructor
      · simp [Ticumulator.add, h1, hv]
      · exact Or.inr hv
    · exfalso
      rw [add_ok_no_raise t w v now h1 hv] at h
      exact Bool.false_ne_true h

/-- C9 witness: `add('close', 1)` (an output-only field name) raises after
stamping `time`, leaving everything else unchanged. -/
theorem C9_witness :
    (Ticumulator.init.add ("close") 1 0).2 = true ∧
    (Ticumulator.init.add ("close") 1 0).1 = { Ticumulator.init with time := some (0 : Rat) } :=
  ⟨by decide,
   (C9_add_raise_updates_time_only Ticumulator.init ("close") 1 0 (by decide)).1⟩

/-- C10 (confirmed): `get_cost` returns `None` when the instrument has no
entry in the position map, and also whenever the stored average cost is
`None` or exactly 0 — a held position with recorded cost 0 is reported as
unknown rather than 0; and `get_cost` is a total read (it never raises:
`dict.get` plus `pos[1] or None` cannot fail). -/
theorem C10_get_cost (positions : List (Nat × (Int × Option Rat))) (instId : Nat)
    (q : Int) (c : Rat) :
    (positions.lookup instId = none → get_cost positions instId = none) ∧
    (positions.lookup instId = some (q, none) → get_cost positions instId = none) ∧
    (positions.lookup instId = some (q, some 0) → get_cost positions instId = none) ∧
    (positions.lookup instId = some (q, some c) → c ≠ 0 →
      get_cost positions instId = some c) := by
  refine ⟨?_, ?_, ?_, ?_⟩
  · intro h
    simp [get_cost, h]
  · intro h
    simp [get_cost, h]
  · intro h
    simp [get_cost, h]
  · intro h hc
    simp [get_cost, h, hc]

/-- C10 witness: a held position of 3 shares with recorded average cost 0
is reported as unknown (`none`). -/
theorem C10_witness :
    List.lookup 7 [(7, ((3 : Int), some (0 : Rat)))] = some ((3 : Int), some (0 : Rat)) ∧
    get_cost [(7, ((3 : Int), some (0 : Rat)))] 7 = none :=
  ⟨by decide,
   (C10_get_cost [(7, ((3 : Int), some (0 : Rat)))] 7 3 0).2.2.1 (by decide)⟩

/-- C7 (confirmed): when a commission report arrives for a known execution
(correlated through the `_executions` and `_orders` maps), its commission
is accrued only when `0 <= commission < 1000000` and its realized profit
only when `-1000000 < realizedPNL < 1000000`; values of one million or more
in magnitude are silently dropped (the handler has no error path), and the
order handlers are invoked afterwards in every case. -/
theorem C7_commission_sanity (orders : List (Nat × Order)) (execs : List (String × Nat))
    (r : CommissionReport) (o : Order)
    (hknown : (execs.lookup r.m_execId).bind orders.lookup = some o) :
    (commissionReportMsg orders execs r).2 = true ∧
    (commissionReportMsg orders execs r).1 = some (commissionAccrue o r) ∧
    (CRAZY_HIGH_COMMISSION ≤ r.m_commission → (commissionAccrue o r).commission = o.commission) ∧
    (r.m_commission < 0 → (commissionAccrue o r).commission = o.commission) ∧
    (CRAZY_HIGH_PROFIT ≤ r.m_realizedPNL → (commissionAccrue o r).profit = o.profit) ∧
    (r.m_realizedPNL ≤ -CRAZY_HIGH_PROFIT → (commissionAccrue o r).profit = o.profit) ∧
    (0 ≤ r.m_commission → r.m_commission < CRAZY_HIGH_COMMISSION →
      (commissionAccrue o r).commission = o.commission + r.m_commission) ∧
    (-CRAZY_HIGH_PROFIT < r.m_realizedPNL → r.m_realizedPNL < CRAZY_HIGH_PROFIT →
      (commissionAccrue o r).profit = o.profit + r.m_realizedPNL) := by
  refine ⟨?_, ?_, ?_, ?_, ?_, ?_, ?_, ?_⟩
  · simp [commissionReportMsg, hknown]
  · simp [commissionReportMsg, hknown]
  · intro h
    have hno : ¬ (0 ≤ r.m_commission ∧ r.m_commission < CRAZY_HIGH_COMMISSION) := by
      rintro ⟨-, hlt⟩
      exact absurd h (not_le.mpr hlt)
    simp only [commissionAccrue, if_neg hno]
    split <;> rfl
  · intro h
    have hno : ¬ (0 ≤ r.m_commission ∧ r.m_commission < CRAZY_HIGH_COMMISSION) := by
      rintro ⟨hle, -⟩
      exact absurd h (not_lt.mpr hle)
    simp only [commissionAccrue, if_neg hno]
    split <;> rfl
  · intro h
    have hno : ¬ (-CRAZY_HIGH_PROFIT < r.m_realizedPNL ∧ r.m_realizedPNL < CRAZY_HIGH_PROFIT) := by
      rintro ⟨-, hlt⟩
      exact absurd h (not_le.mpr hlt)
    simp only [commissionAccrue, if_neg hno]
    split <;> rfl
  · intro h
    have hno : ¬ (-CRAZY_HIGH_PROFIT < r.m_realizedPNL ∧ r.m_realizedPNL < CRAZY_HIGH_PROFIT) := by
      rintro ⟨hlt, -⟩
      exact absurd hlt (not_lt.mpr h)
    simp only [commissionAccrue, if_neg hno]
    split <;> rfl
  · intro h1 h2
    simp only [commissionAccrue, if_pos (And.intro h1 h2)]
    split <;> rfl
  · intro h1 h2
    simp only [commissionAccrue, if_pos (And.intro h1 h2)]
    split <;> rfl

/-- C7 witness: a report on a known execution carrying the bogus
placeholder commission 1000000 and profit 2500000 leaves commission and
profit untouched while still firing the order handlers. -/
theorem C7_witness :
    (List.lookup ("x9") [(("x9" : String), 1)]).bind
        (fun i => List.lookup i [(1, order5)]) = some order5 ∧
    (commissionReportMsg [(1, order5)] [(("x9" : String), 1)]
        { m_execId := "x9", m_commission := 1000000, m_realizedPNL := 2500000 }).2 = true ∧
    (commissionAccrue order5
        { m_execId := "x9", m_commission := 1000000, m_realizedPNL := 2500000 }).commission =
      order5.commission :=
  ⟨by decide,
   (C7_commission_sanity [(1, order5)] [(("x9" : String), 1)]
      { m_execId := "x9", m_commission := 1000000, m_realizedPNL := 2500000 } order5
      (by decide)).1,
   (C7_commission_sanity [(1, order5)] [(("x9" : String), 1)]
      { m_execId := "x9", m_commission := 1000000, m_realizedPNL := 2500000 } order5
      (by decide)).2.2.1 (by norm_num [CRAZY_HIGH_COMMISSION])⟩

/-
Helper lemmas about the recurring scheduler.
-/

theorem rtStep_functime (P : Rat) (s : RTState) (dur : Rat) :
    (rtStep P s dur).1.functime = s.functime + P := rfl

theorem rtIter_functime (P : Rat) (s : RTState) (durs : List Rat) :
    (rtIter P s durs).1.functime = s.functime + durs.length * P := by
  induction durs generalizing s with
  | nil => simp [rtIter]
  | cons d rest ih =>
    show (rtIter P (rtStep P s d).1 rest).1.functime = _
    rw [ih, rtStep_functime]
    push_cast [List.length_cons]
    ring

theorem rtStep_steady (P : Rat) (hP : 0 < P) (F : Rat) :
    rtStep P { functime := F, now := F + 3 / 10 * P } (3 / 10 * P) =
      ({ functime := F + P, now := F + P + 3 / 10 * P }, F + 3 / 10 * P) := by
  simp only [rtStep]
  rw [if_pos (show (0 : Rat) < F + P - (F + 3 / 10 * P) by linarith)]
  simp only [Prod.mk.injEq, RTState.mk.injEq, and_true, true_and, eq_self_iff_true]
  ring

theorem rtIter_steady (P : Rat) (hP : 0 < P) (F : Rat) (m : Nat) :
    rtIter P { functime := F, now := F + 3 / 10 * P } (List.replicate m (3 / 10 * P)) =
      ({ functime := F + m * P, now := F + 3 / 10 * P + m * P }, (List.range m).map (fun i : Nat => F + 3 / 10 * P + i * P)) := by
  induction m generalizing F with
  | zero => simp [rtIter]
  | succ k ih =>
    rw [List.replicate_succ]
    show (let sr := rtStep P { functime := F, now := F + 3 / 10 * P } (3 / 10 * P)
          let r := rtIter P sr.1 (List.replicate k (3 / 10 * P))
          (r.1, sr.2 :: r.2)) = _
    rw [rtStep_steady P hP F]
    simp only
    rw [ih (F + P)]
    have hfun : ((fun i : Nat => F + 3 / 10 * P + i * P) ∘ Nat.succ) =
        fun i : Nat => F + P + 3 / 10 * P + i * P := by
      funext i
      simp only [Function.comp]
      push_cast
      ring
    rw [List.range_succ_eq_map, List.map_cons, List.map_map, hfun]
    simp only [Prod.mk.injEq, RTState.mk.injEq, List.cons.injEq]
    refine ⟨⟨by push_cast; ring, by push_cast; ring⟩, by push_cast; ring, trivial⟩

/-- C3 counterexample: with period 10, start time 0, and a first invocation
that overruns to 100 time units, the source's loop sleeps
`functime - start = 10` (computed from the iteration's start, before the
callback ran) and fires next at 110 — not immediately at 100 as the claim's
"firing immediately on overrun" sleep rule prescribes; the subsequent
back-to-back fires at 110 are also a catch-up burst the claim rules out. -/
theorem C3_counterexample :
    rtRun 10 0 [100, 0, 0] = [0, 110, 110] ∧
    claimRun 10 0 [100, 0, 0] = [0, 100, 100] ∧
    rtRun 10 0 [100, 0, 0] ≠ claimRun 10 0 [100, 0, 0] := by
  have h1 : rtRun 10 0 [100, 0, 0] = [0, 110, 110] := by
    norm_num [rtRun, rtIter, rtStep]
  have h2 : claimRun 10 0 [100, 0, 0] = [0, 100, 100] := by
    norm_num [claimRun, claimIter, claimStep]
  refine ⟨h1, h2, ?_⟩
  rw [h1, h2]
  norm_num

/-- C3 (amended): after each invocation the next scheduled fire time is
advanced by exactly one period from the previous scheduled time (for any
durations); but the sleep amount is `scheduled - start`, measured from the
iteration's start rather than from the current time after the callback, so
an overrunning invocation delays the next fire by its own duration instead
of firing immediately, and once the schedule falls behind, consecutive
fires happen back to back (a catch-up burst) until it catches up.
Consequently, when every invocation takes 0.3 x P the fire times are t0 and
then t0 + 0.3 P + i P for every later cycle i — phase-locked to multiples
of P with a constant 0.3 P offset and no cumulative drift over any number
of cycles (in particular ten or more). -/
theorem C3_schedule_advance_and_phase_lock (P t0 : Rat) (durs : List Rat) (n : Nat)
    (hP : 0 < P) :
    (rtFinal P t0 durs).functime = t0 + durs.length * P ∧
    rtRun P t0 (List.replicate n (3 / 10 * P)) =
      (List.range n).map (fun i : Nat => if i = 0 then t0 else t0 + 3 / 10 * P + i * P) := by
  constructor
  · exact rtIter_functime P { functime := t0, now := t0 } durs
  · cases n with
    | zero => simp [rtRun, rtIter]
    | succ k =>
      have hstep : rtStep P { functime := t0, now := t0 } (3 / 10 * P) =
          ({ functime := t0 + P, now := t0 + P + 3 / 10 * P }, t0) := by
        simp only [rtStep]
        rw [if_pos (show (0 : Rat) < t0 + P - t0 by linarith)]
        simp only [Prod.mk.injEq, RTState.mk.injEq, and_true, true_and, eq_self_iff_true]
        ring
      rw [rtRun, List.replicate_succ]
      show (let sr := rtStep P { functime := t0, now := t0 } (3 / 10 * P)
            let r := rtIter P sr.1 (List.replicate k (3 / 10 * P))
            (r.1, sr.2 :: r.2)).2 = _
      rw [hstep]
      simp only
      rw [rtIter_steady P hP (t0 + P) k]
      have hfun : ((fun i : Nat => if i = 0 then t0 else t0 + 3 / 10 * P + i * P) ∘ Nat.succ) =
          fun i : Nat => t0 + P + 3 / 10 * P + i * P := by
        funext i
        simp only [Function.comp, Nat.succ_ne_zero, if_false]
        push_cast
        ring
      rw [List.range_succ_eq_map, List.map_cons, List.map_map, hfun]
      simp

/-- C3 witness: with period 10 and every invocation lasting 3 time units
(0.3 x P), twelve cycles fire at 0, 13, 23, ..., 113: phase-locked with a
constant offset, no drift. -/
theorem C3_witness :
    rtRun 10 0 (List.replicate 12 (3 / 10 * 10)) =
      [0, 13, 23, 33, 43, 53, 63, 73, 83, 93, 103, 113] := by
  have h := (C3_schedule_advance_and_phase_lock 10 0 [] 12 (by norm_num)).2
  rw [h]
  norm_num [List.range_succ]

/-
Helper lemmas about instrument resolution.
-/

theorem minByMonth_le (best : ContractDetails) (l : List ContractDetails) :
    (minByMonth best l).m_contractMonth ≤ best.m_contractMonth ∧
    ∀ x ∈ l, (minByMonth best l).m_contractMonth ≤ x.m_contractMonth := by
  induction l generalizing best with
  | nil => exact ⟨le_refl _, by simp⟩
  | cons d rest ih =>
    rw [minByMonth]
    by_cases hlt : d.m_contractMonth < best.m_contractMonth
    · rw [if_pos hlt]
      obtain ⟨ha, hb⟩ := ih d
      refine ⟨le_trans ha (le_of_lt hlt), ?_⟩
      intro x hx
      rcases List.mem_cons.mp hx with hx | hx
      · rw [hx]
        exact ha
      · exact hb x hx
    · rw [if_neg hlt]
      obtain ⟨ha, hb⟩ := ih best
      refine ⟨ha, ?_⟩
      intro x hx
      rcases List.mem_cons.mp hx with hx | hx
      · rw [hx]
        exact le_trans ha (le_of_not_lt hlt)
      · exact hb x hx

theorem detailsOnly_map (ds : List ContractDetails) :
    detailsOnly (ds.map DetailsItem.detail) = some ds := by
  induction ds with
  | nil => rfl
  | cons d rest ih => simp [detailsOnly, ih]

theorem choose_best_contract_fut (d e : ContractDetails) (rest : List ContractDetails)
    (hfut : ∀ x ∈ d :: e :: rest, x.m_summary.m_secType = "FUT") :
    choose_best_contract (d :: e :: rest) = some (minByMonth d (e :: rest)) := by
  have hall : ((d :: e :: rest).all (fun x => x.m_summary.m_secType == "FUT")) = true := by
    rw [List.all_eq_true]
    intro x hx
    simpa using hfut x hx
  simp [choose_best_contract, hall]

theorem choose_best_contract_mixed (d e : ContractDetails) (rest : List ContractDetails)
    (hnotfut : ¬ ∀ x ∈ d :: e :: rest, x.m_summary.m_secType = "FUT") :
    choose_best_contract (d :: e :: rest) = none := by
  have hallf : ((d :: e :: rest).all (fun x => x.m_summary.m_secType == "FUT")) = false := by
    rcases Bool.eq_false_or_eq_true ((d :: e :: rest).all (fun x => x.m_summary.m_secType == "FUT"))
      with h | h
    · exact absurd (fun x hx => by simpa using List.all_eq_true.mp h x hx) hnotfut
    · exact h
  simp [choose_best_contract, hallf]

/-- C6 counterexample: two ambiguous stock candidates make
`choose_best_contract` return its documented `None`, which
`_handle_contract_details` then dereferences (`best.m_summary`), so
resolution fails with an `AttributeError` crash — not with a deliberate
"ambiguous match" `ValueError` as the claim states (every intentional
failure on this path is a `ValueError`). -/
theorem C6_counterexample :
    handleContractDetails [DetailsItem.detail stkA, DetailsItem.detail stkB] =
      Except.error (PyErr.attributeError ("m_summary")) ∧
    isValueError (handleContractDetails [DetailsItem.detail stkA, DetailsItem.detail stkB]) =
      false :=
  ⟨rfl, rfl⟩

/-- C6 (amended): resolution over the collected candidates behaves as
follows — with nothing collected before the queue timeout it fails with the
"timed out" `ValueError` (the total model never hangs); with zero
candidates because the broker reported a not-found error, that error is
re-raised; with exactly one candidate (of nonzero contract id) that
candidate is accepted; with several candidates all of security type `FUT`,
the one with the (lexicographically) nearest contract month is chosen; and
with several candidates of any other composition it fails — not with an
"ambiguous match" error, but with the `AttributeError` crash of
dereferencing the absent best contract. -/
theorem C6_resolution_behaviour (d : ContractDetails) (ds : List ContractDetails) :
    handleContractDetails [] =
      Except.error (PyErr.valueError ("Timed out looking for matching contracts for request ID")) ∧
    handleContractDetails [DetailsItem.err ("No security definition has been found")] =
      Except.error (PyErr.valueError ("No security definition has been found")) ∧
    (d.m_summary.m_conId ≠ 0 →
      handleContractDetails [DetailsItem.detail d] = Except.ok d.m_summary) ∧
    (ds ≠ [] → (∀ x ∈ d :: ds, x.m_summary.m_secType = "FUT") →
      (minByMonth d ds).m_summary.m_conId ≠ 0 →
      handleContractDetails ((d :: ds).map DetailsItem.detail) =
        Except.ok (minByMonth d ds).m_summary ∧
      ∀ x ∈ d :: ds, (minByMonth d ds).m_contractMonth ≤ x.m_contractMonth) ∧
    (ds ≠ [] → ¬ (∀ x ∈ d :: ds, x.m_summary.m_secType = "FUT") →
      handleContractDetails ((d :: ds).map DetailsItem.detail) =
        Except.error (PyErr.attributeError ("m_summary"))) := by
  refine ⟨rfl, rfl, ?_, ?_, ?_⟩
  · intro h
    simp [handleContractDetails, detailsOnly, choose_best_contract, h]
  · intro hne hfut hid
    cases ds with
    | nil => exact absurd rfl hne
    | cons e rest =>
      constructor
      · have hc := choose_best_contract_fut d e rest hfut
        have hdo : detailsOnly (DetailsItem.detail e :: List.map DetailsItem.detail rest) =
            some (e :: rest) := by
          simpa using detailsOnly_map (e :: rest)
        simp [handleContractDetails, hdo, hc, hid]
      · intro x hx
        rcases List.mem_cons.mp hx with hx | hx
        · rw [hx]
          exact (minByMonth_le d (e :: rest)).1
        · exact (minByMonth_le d (e :: rest)).2 x hx
  · intro hne hnotfut
    cases ds with
    | nil => exact absurd rfl hne
    | cons e rest =>
      have hc := choose_best_contract_mixed d e rest hnotfut
      have hdo : detailsOnly (DetailsItem.detail e :: List.map DetailsItem.detail rest) =
          some (e :: rest) := by
        simpa using detailsOnly_map (e :: rest)
      simp [handleContractDetails, hdo, hc]

/-- C6 witness: three future candidates with distinct contract months
2017-03, 2016-12, 2017-06 resolve to the December 2016 contract, the
nearest month. -/
theorem C6_witness :
    handleContractDetails ((futA :: [futB, futC]).map DetailsItem.detail) =
      Except.ok (minByMonth futA [futB, futC]).m_summary ∧
    minByMonth futA [futB, futC] = futB := by
  have h1 : ("201612" : String) < "201703" := by
    rw [String.lt_iff_toList_lt]
    decide
  have h2 : ¬ ("201706" : String) < "201612" := by
    rw [String.lt_iff_toList_lt]
    decide
  have hmin : minByMonth futA [futB, futC] = futB := by
    simp [minByMonth, futA, futB, futC, h1, h2]
  refine ⟨?_, hmin⟩
  refine ((C6_resolution_behaviour futA [futB, futC]).2.2.2.1 (by simp)
    (by decide) ?_).1
  rw [hmin]
  decide
